import Mathlib

/-!
Verification of the runtime function-call tracer (tracer.py).

The tracer is modelled as pure state-passing functions over an explicit
`TracerState`. Python dictionaries become association lists; the mutable
`FunctionStats` dataclass instances live in an explicit heap (address ->
record) so that the aliasing behaviour of `dict(self._stats)` is captured
faithfully. Durations and timestamps are rationals; the float infinity
sentinel is the top element of `WithTop ℚ`.
-/

namespace PyTracer

/-- Association-list lookup, modelling Python dict access. -/
def alistFind {α β : Type} [DecidableEq α] : List (α × β) → α → Option β
  | [], _ => none
  | (k, v) :: rest, a => if k = a then some v else alistFind rest a

/-- Association-list update-or-insert, modelling Python dict assignment. -/
def alistSet {α β : Type} [DecidableEq α] : List (α × β) → α → β → List (α × β)
  | [], a, b => [(a, b)]
  | (k, v) :: rest, a, b =>
    if k = a then (a, b) :: rest else (k, v) :: alistSet rest a b

/-- Association-list removal, modelling Python dict.pop. -/
def alistErase {α β : Type} [DecidableEq α] : List (α × β) → α → List (α × β)
  | [], _ => []
  | (k, v) :: rest, a => if k = a then rest else (k, v) :: alistErase rest a

/-- The per-function statistics record (dataclass `FunctionStats`).
`min_time` starts at the infinity sentinel, `max_time` at 0. -/
structure FunctionStats where
  call_count : Nat
  total_time : ℚ
  min_time : WithTop ℚ
  max_time : ℚ
deriving DecidableEq

/-- The sentinel entry produced by the dataclass field defaults
(count 0, total 0.0, minimum at the float infinity sentinel, maximum 0.0). -/
def initStats : FunctionStats :=
  { call_count := 0, total_time := 0, min_time := ⊤, max_time := 0 }

/-- Derived property `avg_time`: `total_time / call_count` if positive count, else 0. -/
def FunctionStats.avg_time (s : FunctionStats) : ℚ :=
  if s.call_count > 0 then s.total_time / (s.call_count : ℚ) else 0

/-- The aggregator update applied by both `wrapped_function` and
`_trace_function`: increment the count, add the duration, fold min and max. -/
def FunctionStats.record (s : FunctionStats) (duration : ℚ) : FunctionStats :=
  { call_count := s.call_count + 1
    total_time := s.total_time + duration
    min_time := min s.min_time (duration : WithTop ℚ)
    max_time := max s.max_time duration }

/-- Folding the aggregator update over a list of durations, starting from the
sentinel entry. -/
def foldRecord (ds : List ℚ) : FunctionStats :=
  ds.foldl FunctionStats.record initStats

/-- A Python callable as the tracer sees it: its object identity, the
identity of its code object when it has one (`__code__`), and its binding
location when it exposes both `__module__` and `__name__`. -/
structure Func where
  fid : Nat
  codeId : Option Nat
  binding : Option (String × String)
deriving DecidableEq

/-- A value stored at a module binding location: either an original callable
or one of the substitute closures created by `_setup_builtin_tracing`
(identified by a fresh wrapper id). -/
inductive Callable where
  | orig (f : Func)
  | wrapped (w : Nat)
deriving DecidableEq

/-- The `_stats` defaultdict. Python dict values are mutable `FunctionStats`
objects, so the table maps a function to a heap address and the heap maps
addresses to the current record; `dict(self._stats)` copies only the table. -/
structure StatsTable where
  table : List (Func × Nat)
  heap : List (Nat × FunctionStats)
  nextAddr : Nat
deriving DecidableEq

/-- Lookup in the defaultdict, allocating a fresh sentinel entry when the
key is absent (`self._stats[func]` on a missing key). -/
def StatsTable.addrOf (σ : StatsTable) (f : Func) : Nat × StatsTable :=
  match alistFind σ.table f with
  | some a => (a, σ)
  | none =>
    (σ.nextAddr,
      { table := alistSet σ.table f σ.nextAddr
        heap := alistSet σ.heap σ.nextAddr initStats
        nextAddr := σ.nextAddr + 1 })

/-- The aggregator update against the table: fetch (or create) the entry for
`f` and mutate it in place with `FunctionStats.record`. -/
def StatsTable.record (σ : StatsTable) (f : Func) (d : ℚ) : StatsTable :=
  let p := σ.addrOf f
  match alistFind p.2.heap p.1 with
  | some s => { p.2 with heap := alistSet p.2.heap p.1 (s.record d) }
  | none => p.2

/-- Reading the current statistics of `f` through the live table. -/
def StatsTable.valueOf (σ : StatsTable) (f : Func) : Option FunctionStats :=
  (alistFind σ.table f).bind fun a => alistFind σ.heap a

/-- Reading an entry of a previously returned results map against a (possibly
later) heap: the map holds the same mutable `FunctionStats` objects. -/
def readSnapshot (snap : List (Func × Nat)) (heap : List (Nat × FunctionStats))
    (f : Func) : Option FunctionStats :=
  (alistFind snap f).bind fun a => alistFind heap a

/-- The whole `FunctionTracer` instance state. Wrapper closures are
represented by their id; `wrapperTarget` gives, for each wrapper, the value
the shared loop variable `func` of its `_setup_builtin_tracing` call holds
after the loop of that call finished (Python closures capture the variable, not
the value, so every wrapper built in one call sees the last iterated
function). `bindings` is the ambient module attribute table touched by
`setattr`, and `originalTraceFunction` names the hook captured from
`sys.gettrace()`. -/
structure TracerState where
  enabled : Bool
  tracedFunctions : List Func
  decoratedFunctions : List Func
  stats : StatsTable
  callStack : List (Nat × (Func × ℚ))
  originalTraceFunction : Option Nat
  builtinFunctions : List Func
  originalBuiltins : List (Func × Func)
  wrappedBuiltins : List (Func × Nat)
  wrapperTarget : List (Nat × Func)
  nextWrapper : Nat
  bindings : List ((String × String) × Callable)
deriving DecidableEq

/-- The state built by `__init__`, over an ambient module binding table. -/
def initialState (b : List ((String × String) × Callable)) : TracerState :=
  { enabled := false
    tracedFunctions := []
    decoratedFunctions := []
    stats := { table := [], heap := [], nextAddr := 0 }
    callStack := []
    originalTraceFunction := none
    builtinFunctions := []
    originalBuiltins := []
    wrappedBuiltins := []
    wrapperTarget := []
    nextWrapper := 0
    bindings := b }

/-- The `_is_builtin_function` test: callable but without a `__code__`. -/
def _is_builtin_function (f : Func) : Bool := f.codeId.isNone

/-- Python set insertion (`set.add`), keeping one copy of each element. -/
def insertDedup (l : List Func) (f : Func) : List Func :=
  if l.any fun g => g == f then l else l ++ [f]

/-- Classification of one registered function: opaque functions go to
`_builtin_functions`, inspectable ones to `_traced_functions`. -/
def classifyStep (st : TracerState) (f : Func) : TracerState :=
  if _is_builtin_function f then
    { st with builtinFunctions := insertDedup st.builtinFunctions f }
  else
    { st with tracedFunctions := insertDedup st.tracedFunctions f }

/-- The registration loop shared by `enable` and `update_functions`. -/
def classifyAdd (st : TracerState) (fns : List Func) : TracerState :=
  fns.foldl classifyStep st

/-- One iteration of the `_setup_builtin_tracing` loop: skip if already
wrapped, else record the original, build a substitute closing over the
shared loop variable (whose final value is `lastF`), and overwrite the
module binding when the function exposes one. -/
def setupStep (lastF : Option Func) (st : TracerState) (f : Func) : TracerState :=
  if (alistFind st.wrappedBuiltins f).isSome then st
  else
    let wid := st.nextWrapper
    let st2 := { st with
      originalBuiltins := alistSet st.originalBuiltins f f
      wrapperTarget := alistSet st.wrapperTarget wid (lastF.getD f)
      wrappedBuiltins := alistSet st.wrappedBuiltins f wid
      nextWrapper := wid + 1 }
    match f.binding with
    | some loc => { st2 with bindings := alistSet st2.bindings loc (Callable.wrapped wid) }
    | none => st2

/-- The `_setup_builtin_tracing` loop over the current opaque-function set. -/
def _setup_builtin_tracing (s : TracerState) : TracerState :=
  s.builtinFunctions.foldl (setupStep s.builtinFunctions.getLast?) s

/-- The `_restore_builtin_functions` loop: rebind every recorded original,
then clear the wrapper bookkeeping unconditionally. -/
def _restore_builtin_functions (s : TracerState) : TracerState :=
  { s with
    bindings := s.originalBuiltins.foldl (fun b p =>
      match p.1.binding with
      | some loc => alistSet b loc (Callable.orig p.2)
      | none => b) s.bindings
    builtinFunctions := []
    originalBuiltins := []
    wrappedBuiltins := [] }

/-- The `update_functions` operation. A `RuntimeError` is modelled as the
error constructor carrying the message and the state at the raise point. -/
def update_functions (s : TracerState) (fns : List Func) :
    Except (String × TracerState) TracerState :=
  if s.enabled = false then .error ("Tracing is not enabled", s)
  else
    let s1 := _restore_builtin_functions s
    let s2 := { s1 with tracedFunctions := s1.decoratedFunctions, builtinFunctions := [] }
    let s3 := classifyAdd s2 fns
    .ok (_setup_builtin_tracing s3)

/-- The `enable` operation; `currentHook` is what `sys.gettrace()` returns
at the moment of the call. Re-enabling with a non-empty list delegates to
`update_functions`, which cannot raise while enabled. -/
def enable (s : TracerState) (currentHook : Option Nat) (fns : List Func) :
    TracerState :=
  if s.enabled then
    if fns.isEmpty then s
    else
      match update_functions s fns with
      | .ok s2 => s2
      | .error p => p.2
  else
    let s1 := { s with tracedFunctions := s.decoratedFunctions }
    let s2 := classifyAdd s1 fns
    let s3 := { s2 with originalTraceFunction := currentHook }
    let s4 := _setup_builtin_tracing s3
    { s4 with enabled := true }

/-- The `disable` operation, returning `dict(self._stats)` (a copy of the
table, sharing the mutable entry objects) together with the new state. -/
def disable (s : TracerState) : List (Func × Nat) × TracerState :=
  if s.enabled = false then (s.stats.table, s)
  else
    let s1 := _restore_builtin_functions s
    let s2 := { s1 with enabled := false, callStack := [] }
    (s2.stats.table, s2)

/-- The `get_results` operation: `dict(self._stats)` with no state change. -/
def get_results (s : TracerState) : List (Func × Nat) × TracerState :=
  (s.stats.table, s)

/-- The body of the substitute closure `wrapped_function`, invoked with the
current value `func` of the shared loop variable. `apply` gives each
behaviour of each callable on an argument token (a result or a raised error), and
`duration` is the elapsed time observed for this invocation. On an error the
raise happens before any statistics update. -/
def wrapped_function (apply : Func → Nat → Except Nat Nat) (s : TracerState)
    (func : Func) (args : Nat) (duration : ℚ) : Except Nat Nat × TracerState :=
  if s.enabled = false then (apply func args, s)
  else
    match apply func args with
    | .error e => (.error e, s)
    | .ok v => (.ok v, { s with stats := s.stats.record func duration })

/-- The `FunctionTracer.trace` decorator: register the original function in
`_decorated_functions` and hand back a wrapper that just forwards the call. -/
def trace (apply : Func → Nat → Except Nat Nat) (s : TracerState) (f : Func) :
    TracerState × (Nat → Except Nat Nat) :=
  ({ s with decoratedFunctions := insertDedup s.decoratedFunctions f },
   fun args => apply f args)

/-- The event kinds distinguished by `_trace_function`. -/
inductive EventK where
  | call
  | ret
  | other
deriving DecidableEq

/-- An execution frame: its object identity (`id(frame)`) and the identity
of its code object (`frame.f_code`). -/
structure Frame where
  frameId : Nat
  codeId : Nat
deriving DecidableEq

/-- What `_trace_function` returns upward: its own trace function, or the
result of the previously-captured hook (a callable id or `None`). -/
inductive TraceRet where
  | selfFn
  | prev (r : Option Nat)
deriving DecidableEq

/-- The identity match of the call-event loop: the first traced function
whose `__code__` is the code object of the frame. -/
def findTraced (fns : List Func) (codeId : Nat) : Option Func :=
  fns.find? fun f => f.codeId == some codeId

/-- Whether the event matches a traced function, i.e. whether the local
variable `func` ends up non-`None`: a call event whose code object matches,
or a return event whose frame has an open call context. -/
def matchedEvent (s : TracerState) (frame : Frame) (event : EventK) : Bool :=
  match event with
  | .call => (findTraced s.tracedFunctions frame.codeId).isSome
  | .ret => (alistFind s.callStack frame.frameId).isSome
  | .other => false

/-- The local bookkeeping of `_trace_function`: open a call context on a
matched call, consume it and apply the aggregator update on a matched
return. -/
def bookkeep (s : TracerState) (frame : Frame) (event : EventK) (now : ℚ) :
    TracerState :=
  match event with
  | .call =>
    match findTraced s.tracedFunctions frame.codeId with
    | some f => { s with callStack := alistSet s.callStack frame.frameId (f, now) }
    | none => s
  | .ret =>
    match alistFind s.callStack frame.frameId with
    | some p =>
      { s with callStack := alistErase s.callStack frame.frameId
               stats := s.stats.record p.1 (now - p.2) }
    | none => s
  | .other => s

/-- Guarded forwarding to the previously-captured hook: its result if it
returns, `None` if it raises or if there was no previous hook. -/
def guardedPrev (hookEnv : Nat → Frame → EventK → Nat → Except Nat (Option Nat))
    (orig : Option Nat) (frame : Frame) (event : EventK) (arg : Nat) : Option Nat :=
  match orig with
  | some h =>
    match hookEnv h frame event arg with
    | .ok r => r
    | .error _ => none
  | none => none

/-- The trace hook installed by `sys.settrace`. `hookEnv` gives the
behaviour of the previously-captured hook by id; `now` is the clock value
read by `time.perf_counter()` during this event. The result is an `Except`
because the delegation on the disabled path is not guarded. -/
def _trace_function (hookEnv : Nat → Frame → EventK → Nat → Except Nat (Option Nat))
    (s : TracerState) (frame : Frame) (event : EventK) (arg : Nat) (now : ℚ) :
    Except Nat (TraceRet × TracerState) :=
  if s.enabled = false then
    match s.originalTraceFunction with
    | some h =>
      match hookEnv h frame event arg with
      | .ok r => .ok (.prev r, s)
      | .error e => .error e
    | none => .ok (.prev none, s)
  else
    let fs : Option Func × TracerState :=
      match event with
      | .call =>
        match findTraced s.tracedFunctions frame.codeId with
        | some f =>
          (some f, { s with callStack := alistSet s.callStack frame.frameId (f, now) })
        | none => (none, s)
      | .ret =>
        match alistFind s.callStack frame.frameId with
        | some p =>
          (some p.1, { s with callStack := alistErase s.callStack frame.frameId
                              stats := s.stats.record p.1 (now - p.2) })
        | none => (none, s)
      | .other => (none, s)
    let pycharmNext : Option Nat :=
      match fs.2.originalTraceFunction with
      | some h =>
        match hookEnv h frame event arg with
        | .ok r => r
        | .error _ => none
      | none => none
    if fs.1.isSome then .ok (.selfFn, fs.2) else .ok (.prev pycharmNext, fs.2)

/-- One aggregator update against the tracer state, as performed by the
return-event branch and by the substitute body. -/
def recordSample (s : TracerState) (f : Func) (d : ℚ) : TracerState :=
  { s with stats := s.stats.record f d }

/-- A sequence of recorded samples for one function between lifecycle calls. -/
def recordSamples (s : TracerState) (f : Func) (ds : List ℚ) : TracerState :=
  ds.foldl (fun st d => recordSample st f d) s

/-- A sample opaque callable (no `__code__`), bound at `mathmod.fcall`. -/
def fB : Func := { fid := 1, codeId := none, binding := some ("mathmod", "fcall") }

/-- A second sample opaque callable, bound at `mathmod.gcall`. -/
def gB : Func := { fid := 2, codeId := none, binding := some ("mathmod", "gcall") }

/-- A behaviour environment where every callable raises error 7. -/
def applyErr : Func → Nat → Except Nat Nat := fun _ _ => .error 7

/-- A behaviour environment where every callable returns its own identity,
so the result of a call reveals which callable was actually invoked. -/
def applyFid : Func → Nat → Except Nat Nat := fun f _ => .ok f.fid

theorem alistFind_set_self {α β : Type} [DecidableEq α]
    (l : List (α × β)) (a : α) (b : β) : alistFind (alistSet l a b) a = some b := by
  induction l with
  | nil => simp [alistFind, alistSet]
  | cons p rest ih =>
    by_cases h : p.1 = a <;> simp [alistFind, alistSet, h, ih]

theorem alistFind_set_ne {α β : Type} [DecidableEq α]
    (l : List (α × β)) (a a' : α) (b : β) (h : a ≠ a') :
    alistFind (alistSet l a b) a' = alistFind l a' := by
  induction l with
  | nil => simp [alistFind, alistSet, h]
  | cons p rest ih =>
    by_cases hp : p.1 = a
    · simp [alistFind, alistSet, hp, h]
    · simp [alistFind, alistSet, hp, ih]

theorem foldl_record_call_count (init : FunctionStats) (ds : List ℚ) :
    (ds.foldl FunctionStats.record init).call_count = init.call_count + ds.length := by
  induction ds generalizing init with
  | nil => simp
  | cons d tl ih =>
    simp only [List.foldl_cons, ih, FunctionStats.record, List.length_cons]
    omega

theorem foldl_record_total_time (init : FunctionStats) (ds : List ℚ) :
    (ds.foldl FunctionStats.record init).total_time = init.total_time + ds.sum := by
  induction ds generalizing init with
  | nil => simp
  | cons d tl ih =>
    simp only [List.foldl_cons, ih, FunctionStats.record, List.sum_cons]
    ring

theorem foldl_record_min_time (init : FunctionStats) (ds : List ℚ) :
    (ds.foldl FunctionStats.record init).min_time =
      ds.foldl (fun (m : WithTop ℚ) d => min m (d : WithTop ℚ)) init.min_time := by
  induction ds generalizing init with
  | nil => rfl
  | cons d tl ih =>
    simp only [List.foldl_cons]
    rw [ih]
    rfl

theorem foldl_record_max_time (init : FunctionStats) (ds : List ℚ) :
    (ds.foldl FunctionStats.record init).max_time =
      ds.foldl (fun (m : ℚ) d => max m d) init.max_time := by
  induction ds generalizing init with
  | nil => rfl
  | cons d tl ih =>
    simp only [List.foldl_cons]
    rw [ih]
    rfl

theorem foldl_min_from_coe (ds : List ℚ) (a : ℚ) :
    ∃ m : ℚ, ds.foldl (fun (acc : WithTop ℚ) d => min acc (d : WithTop ℚ)) (a : WithTop ℚ)
        = (m : WithTop ℚ) ∧ (m = a ∨ m ∈ ds) ∧ m ≤ a ∧ ∀ d ∈ ds, m ≤ d := by
  induction ds generalizing a with
  | nil => exact ⟨a, by simp⟩
  | cons d tl ih =>
    obtain ⟨m, hfold, hmem, hle, hall⟩ := ih (min a d)
    refine ⟨m, ?_, ?_, le_trans hle (min_le_left a d), ?_⟩
    · simpa [WithTop.coe_min] using hfold
    · rcases hmem with h | h
      · rcases le_total a d with had | hda
        · exact Or.inl (by rw [h, min_eq_left had])
        · exact Or.inr (by simp [h, min_eq_right hda])
      · exact Or.inr (by simp [h])
    · intro x hx
      rcases List.mem_cons.mp hx with h | h
      · exact h ▸ le_trans hle (min_le_right a d)
      · exact hall x h

theorem foldl_min_from_top (ds : List ℚ) (hne : ds ≠ []) :
    ∃ m : ℚ, ds.foldl (fun (acc : WithTop ℚ) d => min acc (d : WithTop ℚ)) ⊤
        = (m : WithTop ℚ) ∧ m ∈ ds ∧ ∀ d ∈ ds, m ≤ d := by
  match ds with
  | [] => exact absurd rfl hne
  | d :: tl =>
    obtain ⟨m, hfold, hmem, hle, hall⟩ := foldl_min_from_coe tl d
    refine ⟨m, ?_, ?_, ?_⟩
    · simpa using hfold
    · rcases hmem with h | h
      · simp [h]
      · simp [h]
    · intro x hx
      rcases List.mem_cons.mp hx with h | h
      · exact h ▸ hle
      · exact hall x h

theorem foldl_max_from (ds : List ℚ) (a : ℚ) :
    (ds.foldl (fun (acc : ℚ) d => max acc d) a = a ∨
      ds.foldl (fun (acc : ℚ) d => max acc d) a ∈ ds) ∧
    a ≤ ds.foldl (fun (acc : ℚ) d => max acc d) a ∧
    ∀ d ∈ ds, d ≤ ds.foldl (fun (acc : ℚ) d => max acc d) a := by
  induction ds generalizing a with
  | nil => simp
  | cons d tl ih =>
    obtain ⟨hmem, hle, hall⟩ := ih (max a d)
    have hfold : (d :: tl).foldl (fun (acc : ℚ) d => max acc d) a
        = tl.foldl (fun (acc : ℚ) d => max acc d) (max a d) := rfl
    rw [hfold]
    refine ⟨?_, le_trans (le_max_left a d) hle, ?_⟩
    · rcases hmem with h | h
      · rcases le_total a d with had | hda
        · exact Or.inr (by rw [h, max_eq_right had]; exact List.mem_cons_self d tl)
        · exact Or.inl (by rw [h, max_eq_left hda])
      · exact Or.inr (List.mem_cons_of_mem d h)
    · intro x hx
      rcases List.mem_cons.mp hx with h | h
      · rw [h]; exact le_trans (le_max_right a d) hle
      · exact hall x h

theorem length_mul_le_sum (m : ℚ) (ds : List ℚ) (h : ∀ d ∈ ds, m ≤ d) :
    (ds.length : ℚ) * m ≤ ds.sum := by
  induction ds with
  | nil => simp
  | cons d tl ih =>
    have h1 : m ≤ d := h d (by simp)
    have h2 := ih fun x hx => h x (List.mem_cons_of_mem d hx)
    simp only [List.sum_cons, List.length_cons]
    push_cast
    nlinarith

theorem sum_le_length_mul (M : ℚ) (ds : List ℚ) (h : ∀ d ∈ ds, d ≤ M) :
    ds.sum ≤ (ds.length : ℚ) * M := by
  induction ds with
  | nil => simp
  | cons d tl ih =>
    have h1 : d ≤ M := h d (by simp)
    have h2 := ih fun x hx => h x (List.mem_cons_of_mem d hx)
    simp only [List.sum_cons, List.length_cons]
    push_cast
    nlinarith

/-- C5: for every non-empty sequence of N recorded durations, folding the
aggregator update over them from the sentinel entry yields a call count of N,
a total time equal to the sum, a minimum time equal to the least duration, a
maximum time equal to the greatest duration, and an average equal to the
total divided by N. -/
theorem aggregator_fold_correct (ds : List ℚ) (hne : ds ≠ [])
    (hnn : ∀ d ∈ ds, 0 ≤ d) :
    (foldRecord ds).call_count = ds.length ∧
    (foldRecord ds).total_time = ds.sum ∧
    (∃ m : ℚ, (foldRecord ds).min_time = (m : WithTop ℚ) ∧ m ∈ ds ∧
      ∀ d ∈ ds, m ≤ d) ∧
    ((foldRecord ds).max_time ∈ ds ∧ ∀ d ∈ ds, d ≤ (foldRecord ds).max_time) ∧
    (foldRecord ds).avg_time = (foldRecord ds).total_time / (ds.length : ℚ) := by
  have hcount : (foldRecord ds).call_count = ds.length := by
    rw [foldRecord, foldl_record_call_count]
    simp [initStats]
  have htotal : (foldRecord ds).total_time = ds.sum := by
    rw [foldRecord, foldl_record_total_time]
    show (0 : ℚ) + ds.sum = ds.sum
    ring
  have hmin := foldl_min_from_top ds hne
  have hmax := foldl_max_from ds 0
  refine ⟨hcount, htotal, ?_, ?_, ?_⟩
  · obtain ⟨m, hfold, hmem, hall⟩ := hmin
    refine ⟨m, ?_, hmem, hall⟩
    rw [foldRecord, foldl_record_min_time]
    exact hfold
  · obtain ⟨hmem, _, hall⟩ := hmax
    have hfold : (foldRecord ds).max_time
        = ds.foldl (fun (m : ℚ) d => max m d) 0 := by
      rw [foldRecord, foldl_record_max_time]; rfl
    constructor
    · rw [hfold]
      rcases hmem with h | h
      · obtain ⟨d0, hd0⟩ := List.exists_mem_of_ne_nil ds hne
        have hd0le := hall d0 hd0
        have hd0ge : 0 ≤ d0 := hnn d0 hd0
        have : ds.foldl (fun (m : ℚ) d => max m d) 0 = d0 :=
          le_antisymm (by rw [h]; exact hd0ge) hd0le
        rw [this]; exact hd0
      · exact h
    · intro d hd
      rw [hfold]; exact hall d hd
  · have hpos : 0 < (foldRecord ds).call_count := by
      rw [hcount]
      exact List.length_pos.mpr hne
    rw [FunctionStats.avg_time, if_pos hpos, hcount]

/-- Closed-form instantiation of `aggregator_fold_correct` at durations 1 and 2. -/
theorem aggregator_fold_correct_witness :
    (foldRecord [1, 2]).call_count = ([1, 2] : List ℚ).length ∧
    (foldRecord [1, 2]).total_time = ([1, 2] : List ℚ).sum ∧
    (∃ m : ℚ, (foldRecord [1, 2]).min_time = (m : WithTop ℚ) ∧
      m ∈ ([1, 2] : List ℚ) ∧ ∀ d ∈ ([1, 2] : List ℚ), m ≤ d) ∧
    ((foldRecord [1, 2]).max_time ∈ ([1, 2] : List ℚ) ∧
      ∀ d ∈ ([1, 2] : List ℚ), d ≤ (foldRecord [1, 2]).max_time) ∧
    (foldRecord [1, 2]).avg_time
      = (foldRecord [1, 2]).total_time / (([1, 2] : List ℚ).length : ℚ) :=
  aggregator_fold_correct [1, 2] (by decide) (by decide)

/-- C8: any statistics entry reachable by a sequence of aggregator updates
from the sentinel satisfies min_time ≤ avg_time ≤ max_time once the call
count is at least 1, and before the first sample the average is 0, the
minimum is the infinity sentinel and the maximum is the 0 sentinel. -/
theorem aggregator_invariant (ds : List ℚ) :
    (1 ≤ (foldRecord ds).call_count →
      (foldRecord ds).min_time ≤ ((foldRecord ds).avg_time : WithTop ℚ) ∧
      (foldRecord ds).avg_time ≤ (foldRecord ds).max_time) ∧
    ((foldRecord ds).call_count = 0 →
      (foldRecord ds).avg_time = 0 ∧ (foldRecord ds).min_time = ⊤ ∧
      (foldRecord ds).max_time = 0) := by
  have hcount : (foldRecord ds).call_count = ds.length := by
    rw [foldRecord, foldl_record_call_count]
    simp [initStats]
  have htotal : (foldRecord ds).total_time = ds.sum := by
    rw [foldRecord, foldl_record_total_time]
    show (0 : ℚ) + ds.sum = ds.sum
    ring
  constructor
  · intro hpos
    have hne : ds ≠ [] := by
      intro h
      subst h
      rw [hcount] at hpos
      simp at hpos
    have hlen : 0 < (ds.length : ℚ) := by
      have := List.length_pos.mpr hne
      exact_mod_cast this
    have havg : (foldRecord ds).avg_time = ds.sum / (ds.length : ℚ) := by
      rw [FunctionStats.avg_time, if_pos (by omega), hcount, htotal]
    obtain ⟨m, hfold, _, hall⟩ := foldl_min_from_top ds hne
    obtain ⟨_, hmax0, hmaxall⟩ := foldl_max_from ds 0
    have hminfold : (foldRecord ds).min_time = (m : WithTop ℚ) := by
      rw [foldRecord, foldl_record_min_time]
      exact hfold
    have hmaxfold : (foldRecord ds).max_time
        = ds.foldl (fun (x : ℚ) d => max x d) 0 := by
      rw [foldRecord, foldl_record_max_time]; rfl
    constructor
    · rw [hminfold, havg]
      have hsum : (ds.length : ℚ) * m ≤ ds.sum := length_mul_le_sum m ds hall
      have : m ≤ ds.sum / (ds.length : ℚ) := by
        rw [le_div_iff₀ hlen]
        linarith [hsum]
      exact_mod_cast WithTop.coe_le_coe.mpr this
    · rw [havg, hmaxfold]
      have hsum : ds.sum ≤ (ds.length : ℚ) * (ds.foldl (fun (x : ℚ) d => max x d) 0) := by
        refine sum_le_length_mul _ ds ?_
        intro d hd
        exact hmaxall d hd
      rw [div_le_iff₀ hlen]
      linarith [hsum]
  · intro hzero
    have hnil : ds = [] := by
      rw [hcount] at hzero
      exact List.length_eq_zero.mp hzero
    subst hnil
    refine ⟨rfl, rfl, rfl⟩

/-- Closed-form instantiation of `aggregator_invariant` at durations 2 and 4. -/
theorem aggregator_invariant_witness :
    (foldRecord [2, 4]).min_time ≤ ((foldRecord [2, 4]).avg_time : WithTop ℚ) ∧
    (foldRecord [2, 4]).avg_time ≤ (foldRecord [2, 4]).max_time :=
  (aggregator_invariant [2, 4]).1 (by decide)

/-- C7: calling `update_functions` while tracing is disabled raises the
IllegalState error to the caller, and the state carried at the raise point is
exactly the input state: no tracer bookkeeping is mutated. -/
theorem update_functions_requires_enabled (s : TracerState) (fns : List Func)
    (h : s.enabled = false) :
    update_functions s fns = .error ("Tracing is not enabled", s) := by
  simp [update_functions, h]

/-- Closed instantiation of `update_functions_requires_enabled` on the
freshly constructed tracer. -/
theorem update_functions_requires_enabled_witness :
    update_functions (initialState []) [fB] =
      .error ("Tracing is not enabled", initialState []) :=
  update_functions_requires_enabled (initialState []) [fB] rfl

/-- C10: the `trace` decorator registers the original function in the
decorated set, and the wrapper it returns is extensionally equal to the
original: on every argument it produces exactly the outcome of the original. -/
theorem trace_decorator_transparent (apply : Func → Nat → Except Nat Nat)
    (s : TracerState) (f : Func) (args : Nat) :
    f ∈ (trace apply s f).1.decoratedFunctions ∧
    (trace apply s f).2 args = apply f args := by
  constructor
  · show f ∈ insertDedup s.decoratedFunctions f
    rw [insertDedup]
    by_cases h : s.decoratedFunctions.any fun g => g == f
    · rw [if_pos h]
      obtain ⟨g, hg, hbeq⟩ := List.any_eq_true.mp h
      exact (beq_iff_eq.mp hbeq) ▸ hg
    · rw [if_neg h]
      exact List.mem_append.mpr (Or.inr (List.mem_singleton.mpr rfl))
  · rfl

/-- C1 counterexample: one opaque function `fB` is wrapped and tracing is
enabled; its behaviour raises error 7. Invoking the substitute body
propagates the error but leaves the whole state, statistics included,
unchanged: no aggregator update happens, contradicting the claim that the
call count is incremented and the elapsed duration recorded. -/
theorem wrapped_error_skips_stats_update :
    (enable (initialState []) none [fB]).enabled = true ∧
    alistFind (enable (initialState []) none [fB]).wrapperTarget 0 = some fB ∧
    wrapped_function applyErr (enable (initialState []) none [fB]) fB 0 1 =
      (.error 7, enable (initialState []) none [fB]) ∧
    StatsTable.valueOf (enable (initialState []) none [fB]).stats fB = none := by
  refine ⟨rfl, rfl, rfl, rfl⟩

/-- C1 amended: when the underlying callable of an invoked substitute raises
while tracing is enabled, the substitute re-raises the same error unchanged
to the caller, but performs no Statistics Aggregator update: the raise skips
the timing and recording statements, so the state is returned untouched. -/
theorem wrapped_error_propagates_unrecorded (apply : Func → Nat → Except Nat Nat)
    (s : TracerState) (f : Func) (args : Nat) (d : ℚ) (e : Nat)
    (hen : s.enabled = true) (happ : apply f args = .error e) :
    wrapped_function apply s f args d = (.error e, s) := by
  simp [wrapped_function, hen, happ]

/-- Closed instantiation of `wrapped_error_propagates_unrecorded`. -/
theorem wrapped_error_propagates_unrecorded_witness :
    wrapped_function applyErr (enable (initialState []) none [fB]) fB 5 2 =
      (.error 7, enable (initialState []) none [fB]) :=
  wrapped_error_propagates_unrecorded applyErr (enable (initialState []) none [fB])
    fB 5 2 7 rfl rfl

/-- C2 failing input: two opaque functions `fB` and `gB` wrapped in the same
session. The substitute installed at the binding location of `fB` is wrapper 0,
but the loop variable shared by both closures ends at `gB`, so invoking that
substitute calls `gB` (returning identity 2 of `gB`, not identity 1 of `fB`)
and records the sample under the statistics entry of `gB` while `fB` gets none. -/
theorem builtin_wrap_shared_cell_crosstalk :
    alistFind (enable (initialState []) none [fB, gB]).bindings ("mathmod", "fcall")
      = some (Callable.wrapped 0) ∧
    alistFind (enable (initialState []) none [fB, gB]).wrapperTarget 0 = some gB ∧
    (wrapped_function applyFid (enable (initialState []) none [fB, gB]) gB 0 1).1
      = .ok 2 ∧
    StatsTable.valueOf
        (wrapped_function applyFid (enable (initialState []) none [fB, gB]) gB 0 1).2.stats
        gB = some (initStats.record 1) ∧
    StatsTable.valueOf
        (wrapped_function applyFid (enable (initialState []) none [fB, gB]) gB 0 1).2.stats
        fB = none := by
  refine ⟨rfl, rfl, rfl, rfl, rfl⟩

/-- C4 counterexample: record one sample for `fB`, call `get_results`, then
record a second sample. Reading the previously returned map afterwards shows
the entry with both samples, while at call time it held only the first one:
the entries of the returned map change under later aggregator updates, because
`dict(self._stats)` copies the dict but shares the mutable entry objects. -/
theorem get_results_entries_not_frozen :
    readSnapshot (get_results (recordSample (initialState []) fB 1)).1
        (recordSample (recordSample (initialState []) fB 1) fB 2).stats.heap fB
      = some ((initStats.record 1).record 2) ∧
    readSnapshot (get_results (recordSample (initialState []) fB 1)).1
        (recordSample (initialState []) fB 1).stats.heap fB
      = some (initStats.record 1) ∧
    (initStats.record 1).record 2 ≠ initStats.record 1 := by
  refine ⟨rfl, rfl, by decide⟩

/-- C4 amended: `get_results` returns a copy of the table without clearing
or changing any tracer state, and identities first recorded after the call
are absent from the returned map; but the entries are the same mutable
objects as those of the live table, so a later aggregator update to an identity
already present is visible through the previously returned map (its entries
are not frozen at call time). -/
theorem get_results_snapshot_shares_entries (s : TracerState) (f g : Func)
    (d : ℚ) (hf : (alistFind s.stats.table f).isSome = true)
    (hg : alistFind s.stats.table g = none) :
    (get_results s).2 = s ∧
    (get_results s).1 = s.stats.table ∧
    readSnapshot (get_results s).1 (s.stats.record f d).heap f
      = StatsTable.valueOf (s.stats.record f d) f ∧
    readSnapshot (get_results s).1 (s.stats.record g d).heap g = none := by
  refine ⟨rfl, rfl, ?_, ?_⟩
  · obtain ⟨a, ha⟩ := Option.isSome_iff_exists.mp hf
    rcases hh : alistFind s.stats.heap a with _ | s0 <;>
      simp [readSnapshot, get_results, StatsTable.valueOf, StatsTable.record,
            StatsTable.addrOf, ha, hh]
  · simp [readSnapshot, get_results, hg]

/-- Closed instantiation of `get_results_snapshot_shares_entries` on a state
holding one sample for `fB`, with `gB` recorded only after the call. -/
theorem get_results_snapshot_shares_entries_witness :
    (get_results (recordSample (initialState []) fB 1)).2
      = recordSample (initialState []) fB 1 ∧
    (get_results (recordSample (initialState []) fB 1)).1
      = (recordSample (initialState []) fB 1).stats.table ∧
    readSnapshot (get_results (recordSample (initialState []) fB 1)).1
        ((recordSample (initialState []) fB 1).stats.record fB 2).heap fB
      = StatsTable.valueOf ((recordSample (initialState []) fB 1).stats.record fB 2) fB ∧
    readSnapshot (get_results (recordSample (initialState []) fB 1)).1
        ((recordSample (initialState []) fB 1).stats.record gB 2).heap gB = none :=
  get_results_snapshot_shares_entries (recordSample (initialState []) fB 1)
    fB gB 2 rfl rfl

/-- C6: enabling twice with the same opaque function `f` registered both
times leaves exactly one level of rebinding at the location of `f`: the installed
callable is a substitute whose captured callable is `f` itself (the second
session first restores the original and then rewraps it, and the recorded
original is always the registered function object, never a substitute), and
a single `disable` puts the original callable back at the location. -/
theorem builtin_wrap_idempotent (b : List ((String × String) × Callable))
    (f : Func) (loc : String × String)
    (hcode : f.codeId = none) (hbind : f.binding = some loc) :
    alistFind (enable (enable (initialState b) none [f]) none [f]).bindings loc
      = some (Callable.wrapped 1) ∧
    alistFind (enable (enable (initialState b) none [f]) none [f]).wrapperTarget 1
      = some f ∧
    alistFind (enable (enable (initialState b) none [f]) none [f]).originalBuiltins f
      = some f ∧
    alistFind ((disable (enable (enable (initialState b) none [f]) none [f])).2).bindings
      loc = some (Callable.orig f) := by
  refine ⟨?_, ?_, ?_, ?_⟩ <;>
    simp [enable, initialState, update_functions, _restore_builtin_functions,
          classifyAdd, classifyStep, _is_builtin_function, hcode, insertDedup,
          _setup_builtin_tracing, setupStep, hbind, disable, alistFind, alistSet,
          alistFind_set_self]

/-- Closed instantiation of `builtin_wrap_idempotent` at the sample opaque
callable `fB`. -/
theorem builtin_wrap_idempotent_witness :
    alistFind (enable (enable (initialState []) none [fB]) none [fB]).bindings
      ("mathmod", "fcall") = some (Callable.wrapped 1) ∧
    alistFind (enable (enable (initialState []) none [fB]) none [fB]).wrapperTarget 1
      = some fB ∧
    alistFind (enable (enable (initialState []) none [fB]) none [fB]).originalBuiltins fB
      = some fB ∧
    alistFind ((disable (enable (enable (initialState []) none [fB]) none [fB])).2).bindings
      ("mathmod", "fcall") = some (Callable.orig fB) :=
  builtin_wrap_idempotent [] fB ("mathmod", "fcall") rfl rfl

theorem classifyStep_stats (st : TracerState) (f : Func) :
    (classifyStep st f).stats = st.stats := by
  rw [classifyStep]
  split <;> rfl

theorem foldl_classifyStep_stats (l : List Func) (st : TracerState) :
    (l.foldl classifyStep st).stats = st.stats := by
  induction l generalizing st with
  | nil => rfl
  | cons f tl ih => rw [List.foldl_cons, ih, classifyStep_stats]

theorem setupStep_stats (lastF : Option Func) (st : TracerState) (f : Func) :
    (setupStep lastF st f).stats = st.stats := by
  rw [setupStep]
  split
  · rfl
  · split <;> rfl

theorem foldl_setupStep_stats (lastF : Option Func) (l : List Func)
    (st : TracerState) : (l.foldl (setupStep lastF) st).stats = st.stats := by
  induction l generalizing st with
  | nil => rfl
  | cons f tl ih => rw [List.foldl_cons, ih, setupStep_stats]

theorem enable_stats (s : TracerState) (hook : Option Nat) (fns : List Func) :
    (enable s hook fns).stats = s.stats := by
  by_cases hs : s.enabled
  · by_cases he : fns.isEmpty <;>
      simp [enable, hs, he, update_functions, classifyAdd, _setup_builtin_tracing,
            foldl_classifyStep_stats, foldl_setupStep_stats, _restore_builtin_functions]
  · simp [enable, hs, classifyAdd, _setup_builtin_tracing,
          foldl_classifyStep_stats, foldl_setupStep_stats]

theorem disable_stats (s : TracerState) : ((disable s).2).stats = s.stats := by
  by_cases hs : s.enabled <;> simp [disable, hs, _restore_builtin_functions]

theorem disable_of_disabled (s : TracerState) (hs : s.enabled = false) :
    disable s = (s.stats.table, s) := by
  simp [disable, hs]

theorem disable_disables (s : TracerState) : ((disable s).2).enabled = false := by
  by_cases hs : s.enabled <;> simp [disable, hs, _restore_builtin_functions]

theorem recordSamples_stats (s : TracerState) (f : Func) (ds : List ℚ) :
    (recordSamples s f ds).stats = ds.foldl (fun σ d => σ.record f d) s.stats := by
  induction ds generalizing s with
  | nil => rfl
  | cons d tl ih =>
    show (recordSamples (recordSample s f d) f tl).stats = _
    rw [ih, List.foldl_cons]
    rfl

theorem record_absent_components (σ : StatsTable) (f : Func) (d : ℚ)
    (h : alistFind σ.table f = none) :
    alistFind (σ.record f d).table f = some σ.nextAddr ∧
    alistFind (σ.record f d).heap σ.nextAddr = some (initStats.record d) := by
  simp [StatsTable.record, StatsTable.addrOf, h, alistFind_set_self]

theorem record_present_components (σ : StatsTable) (f : Func) (a : Nat)
    (s0 : FunctionStats) (d : ℚ) (ht : alistFind σ.table f = some a)
    (hh : alistFind σ.heap a = some s0) :
    alistFind (σ.record f d).table f = some a ∧
    alistFind (σ.record f d).heap a = some (s0.record d) := by
  simp [StatsTable.record, StatsTable.addrOf, ht, hh, alistFind_set_self]

theorem foldl_record_components (f : Func) (ds : List ℚ) (σ : StatsTable)
    (a : Nat) (s0 : FunctionStats) (ht : alistFind σ.table f = some a)
    (hh : alistFind σ.heap a = some s0) :
    alistFind (ds.foldl (fun t d => t.record f d) σ).table f = some a ∧
    alistFind (ds.foldl (fun t d => t.record f d) σ).heap a
      = some (ds.foldl FunctionStats.record s0) := by
  induction ds generalizing σ s0 with
  | nil => exact ⟨ht, hh⟩
  | cons d tl ih =>
    obtain ⟨ht1, hh1⟩ := record_present_components σ f a s0 d ht hh
    rw [List.foldl_cons, List.foldl_cons]
    exact ih (σ.record f d) (s0.record d) ht1 hh1

theorem valueOf_foldl_record_of_absent (f : Func) (ds : List ℚ) (σ : StatsTable)
    (hne : ds ≠ []) (habs : alistFind σ.table f = none) :
    StatsTable.valueOf (ds.foldl (fun t d => t.record f d) σ) f
      = some (ds.foldl FunctionStats.record initStats) := by
  match ds with
  | [] => exact absurd rfl hne
  | d :: tl =>
    obtain ⟨ht1, hh1⟩ := record_absent_components σ f d habs
    rw [List.foldl_cons, List.foldl_cons]
    obtain ⟨ht2, hh2⟩ :=
      foldl_record_components f tl (σ.record f d) σ.nextAddr
        (initStats.record d) ht1 hh1
    rw [StatsTable.valueOf, ht2]
    simpa using hh2

/-- C9: statistics persist across sessions. After enable, a first batch of
recorded samples, disable, a second enable, a second batch, and a second
disable, the entry for `f` holds the fold of both batches together: neither
`enable` nor `disable` clears or decrements any entry. Moreover `disable` on
the already-disabled final state returns the current snapshot and leaves the
state completely unchanged. -/
theorem stats_persist_across_sessions (b : List ((String × String) × Callable))
    (h1 h2 : Option Nat) (fns1 fns2 : List Func) (f : Func) (ds1 ds2 : List ℚ)
    (hne : ds1 ++ ds2 ≠ []) :
    StatsTable.valueOf
      ((disable (recordSamples
        (enable ((disable (recordSamples (enable (initialState b) h1 fns1) f ds1)).2)
          h2 fns2) f ds2)).2).stats f
      = some (foldRecord (ds1 ++ ds2)) ∧
    disable ((disable (recordSamples
        (enable ((disable (recordSamples (enable (initialState b) h1 fns1) f ds1)).2)
          h2 fns2) f ds2)).2)
      = (((disable (recordSamples
          (enable ((disable (recordSamples (enable (initialState b) h1 fns1) f ds1)).2)
            h2 fns2) f ds2)).2).stats.table,
         (disable (recordSamples
          (enable ((disable (recordSamples (enable (initialState b) h1 fns1) f ds1)).2)
            h2 fns2) f ds2)).2) := by
  constructor
  · rw [disable_stats, recordSamples_stats, enable_stats, disable_stats,
        recordSamples_stats, enable_stats, ← List.foldl_append]
    rw [foldRecord]
    exact valueOf_foldl_record_of_absent f (ds1 ++ ds2) (initialState b).stats hne rfl
  · exact disable_of_disabled _ (disable_disables _)

/-- Closed instantiation of `stats_persist_across_sessions`: one sample per
session for `fB`, so the final entry folds both durations. -/
theorem stats_persist_across_sessions_witness :
    StatsTable.valueOf
      ((disable (recordSamples
        (enable ((disable (recordSamples (enable (initialState []) none []) fB [1])).2)
          none []) fB [2])).2).stats fB
      = some (foldRecord ([1] ++ [2])) ∧
    disable ((disable (recordSamples
        (enable ((disable (recordSamples (enable (initialState []) none []) fB [1])).2)
          none []) fB [2])).2)
      = (((disable (recordSamples
          (enable ((disable (recordSamples (enable (initialState []) none []) fB [1])).2)
            none []) fB [2])).2).stats.table,
         (disable (recordSamples
          (enable ((disable (recordSamples (enable (initialState []) none []) fB [1])).2)
            none []) fB [2])).2) :=
  stats_persist_across_sessions [] none none [] [] fB [1] [2] (by decide)

/-- C3: the installed trace hook. When tracing is disabled it immediately
delegates the identical (frame, event, arg) triple to the previously-captured
hook when there is one — propagating even a failure of that hook — and performs
no bookkeeping (the state is returned unchanged). When enabled it never
fails: it performs the local bookkeeping, forwards the same triple to the
previous hook with failures guarded to `None`, and returns its own trace
function exactly when the event matched a traced function, otherwise the
(guarded) result of the previous hook. -/
theorem trace_hook_chain_correct
    (hookEnv : Nat → Frame → EventK → Nat → Except Nat (Option Nat))
    (s : TracerState) (frame : Frame) (event : EventK) (arg : Nat) (now : ℚ) :
    (s.enabled = false →
      _trace_function hookEnv s frame event arg now =
        (match s.originalTraceFunction with
         | some h => (hookEnv h frame event arg).map fun r => (TraceRet.prev r, s)
         | none => .ok (.prev none, s))) ∧
    (s.enabled = true →
      _trace_function hookEnv s frame event arg now =
        .ok (if matchedEvent s frame event then .selfFn
             else .prev (guardedPrev hookEnv s.originalTraceFunction frame event arg),
             bookkeep s frame event now)) := by
  constructor
  · intro hs
    rw [_trace_function.eq_def, if_pos hs]
    cases horig : s.originalTraceFunction with
    | none => rfl
    | some h =>
      cases hh : hookEnv h frame event arg with
      | ok r => simp [hh, Except.map]
      | error e => simp [hh, Except.map]
  · intro hs
    rw [_trace_function.eq_def, if_neg (by simp [hs])]
    cases event with
    | call =>
      cases hf : findTraced s.tracedFunctions frame.codeId with
      | some f => simp [matchedEvent, bookkeep, hf]
      | none => simp [matchedEvent, bookkeep, guardedPrev, hf]
    | ret =>
      cases hc : alistFind s.callStack frame.frameId with
      | some p => simp [matchedEvent, bookkeep, hc]
      | none => simp [matchedEvent, bookkeep, guardedPrev, hc]
    | other => simp [matchedEvent, bookkeep, guardedPrev]

/-- Closed instantiations of `trace_hook_chain_correct`: on the disabled
fresh state the hook returns the no-previous-hook result unchanged, and on
an enabled state with no match it returns the guarded previous result. -/
theorem trace_hook_chain_correct_witness :
    _trace_function (fun _ _ _ _ => .ok none) (initialState []) { frameId := 0, codeId := 0 }
        EventK.other 0 0 = .ok (.prev none, initialState []) ∧
    _trace_function (fun _ _ _ _ => .error 3) (enable (initialState []) none [fB])
        { frameId := 0, codeId := 0 } EventK.call 0 0
      = .ok (.prev none, enable (initialState []) none [fB]) := by
  constructor
  · have h := (trace_hook_chain_correct (fun _ _ _ _ => .ok none) (initialState [])
      { frameId := 0, codeId := 0 } EventK.other 0 0).1 rfl
    simpa using h
  · have h := (trace_hook_chain_correct (fun _ _ _ _ => .error 3)
      (enable (initialState []) none [fB]) { frameId := 0, codeId := 0 }
      EventK.call 0 0).2 rfl
    simpa [matchedEvent, bookkeep, guardedPrev, findTraced] using h

end PyTracer
